import Mathlib

/-!
# Verification of the `ingesta` Mongo-to-S3 export pipeline

Shallow embedding of `src/ingesta.py`: the document value tree, the
ObjectId normalizer `convert_objectid_to_str`, the NDJSON exporter
`export_collection_to_ndjson`, the S3 upload key computation of
`upload_to_s3`, and the orchestration in `main`.
-/

namespace Ingesta

/-! ## Document value trees

A BSON document as the Python code sees it: an ordered mapping from
string keys to values; a value is a scalar (string, int, bool, null),
an ObjectId, a nested document, or an ordered sequence of values.
`Fields` is the ordered entry list of a document, `Elems` the element
list of an array. -/

mutual

inductive Value where
  | vstr (s : String)
  | vint (n : Int)
  | vbool (b : Bool)
  | vnull
  | oid (hex : String)
  | vdict (fs : Fields)
  | varr (es : Elems)
  deriving DecidableEq, Repr

inductive Fields where
  | nil
  | cons (key : String) (val : Value) (rest : Fields)
  deriving DecidableEq, Repr

inductive Elems where
  | nil
  | cons (hd : Value) (rest : Elems)
  deriving DecidableEq, Repr

end

/-- `str(ObjectId(h))` in Python yields the 24-char hex string `h`. -/
def oidStr (hex : String) : String := hex

/-! ## `convert_objectid_to_str` (src/ingesta.py lines 61-72)

```python
def convert_objectid_to_str(doc):
    for key, value in doc.items():
        if isinstance(value, ObjectId):
            doc[key] = str(value)
        elif isinstance(value, dict):
            convert_objectid_to_str(value)
        elif isinstance(value, list):
            for item in value:
                if isinstance(item, dict):
                    convert_objectid_to_str(item)
    return doc
```

The loop body inspects each top-level value: an ObjectId is replaced by
its string; a dict is recursed into; for a list, only the dict elements
are recursed into — other list elements (including ObjectIds and nested
lists) are left untouched. -/

mutual

/-- One entry value of the loop body of `convert_objectid_to_str`. -/
def convEntry : Value → Value
  | .oid h => .vstr (oidStr h)
  | .vdict fs => .vdict (convFields fs)
  | .varr es => .varr (convElems es)
  | v => v

/-- The whole `for key, value in doc.items()` loop. -/
def convFields : Fields → Fields
  | .nil => .nil
  | .cons k v rest => .cons k (convEntry v) (convFields rest)

/-- The `for item in value` loop over a list value: only dict items are
recursed into. -/
def convElems : Elems → Elems
  | .nil => .nil
  | .cons v rest => .cons (convItem v) (convElems rest)

/-- The body of the list loop: `if isinstance(item, dict): convert(...)`. -/
def convItem : Value → Value
  | .vdict fs => .vdict (convFields fs)
  | v => v

end

/-- `convert_objectid_to_str` applied to a document (a dict). -/
def convert_objectid_to_str (doc : Fields) : Fields := convFields doc

/-! ## Occurrence of ObjectIds anywhere in a tree -/

mutual

/-- Does an ObjectId occur anywhere in the value tree? -/
def hasOid : Value → Bool
  | .oid _ => true
  | .vdict fs => hasOidF fs
  | .varr es => hasOidE es
  | _ => false

def hasOidF : Fields → Bool
  | .nil => false
  | .cons _ v rest => hasOid v || hasOidF rest

def hasOidE : Elems → Bool
  | .nil => false
  | .cons v rest => hasOid v || hasOidE rest

end

/-! ## JSON serialization: `json.dumps(doc, ensure_ascii=False)`

Default separators are `", "` and `": "`.  Non-ASCII characters are
left as-is; the two JSON metacharacters and control characters are
escaped exactly as CPython's `json` module does.  `json.dumps` raises
`TypeError` exactly when a non-JSON-serializable value — in this data
model, an `ObjectId` — occurs anywhere in the tree. -/

/-- Decimal digit character. -/
def digitChar (d : Nat) : Char := Char.ofNat (48 + d)

/-- Decimal digits, fueled recursion (`n + 1` fuel always suffices). -/
def natDecGo (fuel : Nat) (n : Nat) : List Char :=
  match fuel with
  | 0 => []
  | fuel + 1 =>
    if n < 10 then [digitChar n]
    else natDecGo fuel (n / 10) ++ [digitChar (n % 10)]

/-- Decimal rendering of a natural number, most significant digit first. -/
def natDec (n : Nat) : List Char := natDecGo (n + 1) n

/-- Python's rendering of an int. -/
def intDec (i : Int) : String :=
  if i < 0 then "-" ++ String.mk (natDec i.natAbs) else String.mk (natDec i.natAbs)

/-- Lower-case hex digit. -/
def hexDigit (d : Nat) : Char :=
  if d < 10 then Char.ofNat (48 + d) else Char.ofNat (87 + d)

/-- CPython `json` escaping of a single character (`ensure_ascii=False`):
`"` and `\` are escaped, control characters use the short escapes
`\n \r \t \b \f` or `\u00XX`. -/
def escChar (c : Char) : List Char :=
  if c = '"' then ['\\', '"']
  else if c = '\\' then ['\\', '\\']
  else if c = '\n' then ['\\', 'n']
  else if c = '\r' then ['\\', 'r']
  else if c = '\t' then ['\\', 't']
  else if c = Char.ofNat 8 then ['\\', 'b']
  else if c = Char.ofNat 12 then ['\\', 'f']
  else if c.toNat < 32 then
    ['\\', 'u', '0', '0', hexDigit (c.toNat / 16), hexDigit (c.toNat % 16)]
  else [c]

/-- JSON string literal: quotes around the escaped characters. -/
def encStr (s : String) : String :=
  String.mk ('"' :: (s.data.flatMap escChar ++ ['"']))

/-- `", "`-separated concatenation, as `json.dumps` puts between items. -/
def joinComma : List String → String
  | [] => ""
  | [s] => s
  | s :: rest => s ++ ", " ++ joinComma rest

mutual

/-- Serialization of a single JSON value.  Total function; it is only
ever applied to ObjectId-free trees (`dumps` guards with `hasOidF`). -/
def encVal : Value → String
  | .vstr s => encStr s
  | .vint n => intDec n
  | .vbool b => if b then "true" else "false"
  | .vnull => "null"
  | .oid h => encStr (oidStr h)
  | .vdict fs => "\x7b" ++ joinComma (encFields fs) ++ "\x7d"
  | .varr es => "[" ++ joinComma (encElems es) ++ "]"

def encFields : Fields → List String
  | .nil => []
  | .cons k v rest => (encStr k ++ ": " ++ encVal v) :: encFields rest

def encElems : Elems → List String
  | .nil => []
  | .cons v rest => encVal v :: encElems rest

end

/-- The serialization of a whole document. -/
def encDoc (doc : Fields) : String := "\x7b" ++ joinComma (encFields doc) ++ "\x7d"

/-- `json.dumps(doc, ensure_ascii=False)`: raises (`none`) exactly when
some value in the tree is not JSON-serializable, i.e. an ObjectId. -/
def dumps (doc : Fields) : Option String :=
  if hasOidF doc then none else some (encDoc doc)

/-! ## Path helpers -/

/-- `os.path.basename` on a POSIX path: the text after the last slash. -/
def basename (p : String) : String :=
  String.mk ((p.data.reverse.takeWhile (fun c => c ≠ '/')).reverse)

/-- `prefix.rstrip('/')`: drop every trailing slash. -/
def rstripSlash (s : String) : String :=
  String.mk ((s.data.reverse.dropWhile (fun c => c = '/')).reverse)

/-- Does the string end in a slash? -/
def endsWithSlash (s : String) : Bool :=
  match s.data.getLast? with
  | some c => c = '/'
  | none => false

/-- `os.path.join(dir, file)` for a relative `file`. -/
def pathJoin (dir file : String) : String :=
  if dir = "" then file
  else if endsWithSlash dir then dir ++ file
  else dir ++ "/" ++ file

/-! ## Run environment

The run-level inputs of one invocation: the configuration read from the
environment, the contents of the Mongo database (per collection name),
and the behavior of S3 (per local path, bucket and key; `none` is a
successful `upload_file`). -/

/-- The three exception kinds `upload_to_s3` catches and re-raises. -/
inductive S3Err where
  | noCredentials
  | incompleteCreds
  | clientError
  deriving DecidableEq, Repr

structure Env where
  mongoDB : String
  collections : List String
  s3Bucket : String
  s3Pfx : String
  outputDir : String
  timestamp : String
  db : String → List Fields
  s3 : String → String → String → Option S3Err

/-! ## `export_collection_to_ndjson` (src/ingesta.py lines 75-96) -/

/-- Outcome of exporting one collection: `skip` (empty collection,
warning printed, empty path returned), `ok` (file written, path
returned), or `err` (serialization raised mid-file; the file holds the
lines written before the failure). -/
inductive ExportResult where
  | skip
  | ok (path : String) (lines : List String) (count : Nat)
  | err (path : String) (linesBefore : List String)
  deriving DecidableEq, Repr

/-- The output path the exporter computes for a collection:
`os.path.join(out_dir, f"{collection}_{TIMESTAMP}.ndjson")`. -/
def outPathFor (env : Env) (collName : String) : String :=
  pathJoin env.outputDir (collName ++ "_" ++ env.timestamp ++ ".ndjson")

/-- The `for doc in docs` write loop: normalize, dump, write one line
per document; a `dumps` failure raises, leaving the earlier lines in
the file.  Returns the line payloads written and whether the loop
finished. -/
def writeLoop : List Fields → List String × Bool
  | [] => ([], true)
  | d :: rest =>
    match dumps (convert_objectid_to_str d), writeLoop rest with
    | none, _ => ([], false)
    | some s, (ls, ok) => (s :: ls, ok)

/-- The byte content of the NDJSON file: each written payload is
followed by exactly one `"\n"` (`f.write(json.dumps(doc, ...) + "\n")`). -/
def renderFile : List String → String
  | [] => ""
  | l :: rest => l ++ "\n" ++ renderFile rest

/-- The exporter.  `cursor = coll.find({}); docs = list(cursor)`; empty
result sets are skipped with a warning; otherwise each document is
normalized and written as one line. -/
def export_collection_to_ndjson (env : Env) (collName : String) : ExportResult :=
  if (env.db collName).isEmpty then .skip
  else
    match writeLoop (env.db collName) with
    | (ls, true) => .ok (outPathFor env collName) ls (env.db collName).length
    | (ls, false) => .err (outPathFor env collName) ls

/-- The returned output path (the Python function returns a string,
`""` for a skipped collection; `err` never returns). -/
def ExportResult.path : ExportResult → String
  | .skip => ""
  | .ok p _ _ => p
  | .err p _ => p

/-- The document count of the collection (printed on success; `0` for a
skip). -/
def ExportResult.count : ExportResult → Nat
  | .skip => 0
  | .ok _ _ n => n
  | .err _ _ => 0

/-! ## `upload_to_s3` (src/ingesta.py lines 103-119) -/

/-- The destination key: `key = os.path.basename(local_path)`, then
`if prefix: key = f"{prefix.rstrip('/')}/{key}"`. -/
def computeKey (pfx : String) (local_path : String) : String :=
  let key := basename local_path
  if pfx ≠ "" then rstripSlash pfx ++ "/" ++ key else key

/-- `upload_to_s3`: compute the key, attempt the transfer; the three
caught exception kinds are logged and re-raised (`Except.error`);
success returns the key. -/
def upload_to_s3 (env : Env) (local_path : String) : Except S3Err String :=
  match env.s3 local_path env.s3Bucket (computeKey env.s3Pfx local_path) with
  | some e => .error e
  | none => .ok (computeKey env.s3Pfx local_path)

/-! ## `main` (src/ingesta.py lines 122-150) -/

/-- How the process run ends: `sys.exit(0/1/2)`, or an uncaught
exception from the export loop or the upload loop. -/
inductive RunStatus where
  | exit0
  | exit1
  | exit2
  | exportRaised
  | uploadRaised (e : S3Err)
  deriving DecidableEq, Repr

/-- Observable outcome of one run: whether a Mongo client was opened,
the empty-collection warnings, every file written to the staging
directory (path and line payloads, partial files included), the
accumulated `exported_files` list, the uploads attempted (path, key),
the keys now present in the bucket, and the final status. -/
structure RunOutcome where
  connected : Bool
  warnings : List String
  files : List (String × List String)
  exported_files : List String
  uploadsAttempted : List (String × String)
  s3Objects : List String
  status : RunStatus
  deriving DecidableEq, Repr

/-- The export loop of `main` (lines 137-141): each collection in the
configured order; non-empty returned paths are appended to
`exported_files`; an exporter exception stops the loop and propagates.
Returns (warnings, files written, exported paths, finished?). -/
def exportAll (env : Env) : List String → List String × List (String × List String) × List String × Bool
  | [] => ([], [], [], true)
  | c :: rest =>
    match export_collection_to_ndjson env c, exportAll env rest with
    | .skip, (ws, fs, ps, ok) => (c :: ws, fs, ps, ok)
    | .ok p ls _, (ws, fs, ps, ok) => (ws, (p, ls) :: fs, p :: ps, ok)
    | .err p ls, _ => ([], [(p, ls)], [], false)

/-- The upload loop of `main` (lines 147-148): each exported path in
order; the first `upload_to_s3` failure propagates and aborts the rest.
Returns (uploads attempted, keys uploaded, error if raised). -/
def uploadAll (env : Env) : List String → List (String × String) × List String × Option S3Err
  | [] => ([], [], none)
  | p :: rest =>
    match upload_to_s3 env p, uploadAll env rest with
    | .error e, _ => ([(p, computeKey env.s3Pfx p)], [], some e)
    | .ok key, (att, keys, err) => ((p, key) :: att, key :: keys, err)

/-- Lines 143-148 of `main`: after the export loop finished normally,
`sys.exit(2)` when `exported_files` is empty, otherwise the upload
loop, whose first failure propagates out of `main`. -/
def mainUpload (env : Env) (ws : List String) (fs : List (String × List String))
    (paths : List String) : RunOutcome :=
  if paths.isEmpty then ⟨true, ws, fs, paths, [], [], .exit2⟩
  else
    match uploadAll env paths with
    | (att, keys, some e) => ⟨true, ws, fs, paths, att, keys, .uploadRaised e⟩
    | (att, keys, none) => ⟨true, ws, fs, paths, att, keys, .exit0⟩

/-- `main`: validate `MONGO_DB`/`COLLECTIONS`, then `S3_BUCKET` (exit 1
before any client is created); open the client; run the export loop;
exit 2 if `exported_files` is empty; otherwise run the upload loop. -/
def main (env : Env) : RunOutcome :=
  if env.mongoDB = "" ∨ env.collections.isEmpty then
    ⟨false, [], [], [], [], [], .exit1⟩
  else if env.s3Bucket = "" then
    ⟨false, [], [], [], [], [], .exit1⟩
  else
    match exportAll env env.collections with
    | (ws, fs, paths, false) => ⟨true, ws, fs, paths, [], [], .exportRaised⟩
    | (ws, fs, paths, true) => mainUpload env ws fs paths

/-! ## Small observation helpers -/

/-- A value that is neither a mapping nor a sequence nor an ObjectId:
the pass-through branch of the normalizer's dispatch. -/
def isScalar : Value → Bool
  | .vdict _ => false
  | .varr _ => false
  | .oid _ => false
  | _ => true

/-- The ordered key list of a document. -/
def keysF : Fields → List String
  | .nil => []
  | .cons k _ rest => k :: keysF rest

/-- The destination-key rule in the words of the specification: the
prefix with trailing slashes stripped, followed by a slash, followed
by the file's basename when a prefix is configured; the bare basename
otherwise. -/
def specUploadKey (pfx p : String) : String :=
  if pfx ≠ "" then rstripSlash pfx ++ "/" ++ basename p else basename p

/-! ## Concrete sample data for evaluating the embedding -/

/-- A one-field document without ObjectIds. -/
def docU : Fields := .cons "a" (.vint 1) .nil

/-- Another ObjectId-free document. -/
def docO : Fields := .cons "b" (.vstr "x") .nil

/-- A document whose ObjectId sits directly inside a list value: the
case the normalizer's list loop does not convert. -/
def badDoc : Fields :=
  .cons "ids" (.varr (.cons (.oid "64ab0c9f2e8d4a1b3c5d6e7f") .nil)) .nil

/-- A run whose collections are all empty. -/
def envA : Env :=
  ⟨"mydb", ["users", "orders"], "bucket", "", "/app/out", "20240101T000000Z",
   fun _ => [], fun _ _ _ => none⟩

/-- A run with an empty destination bucket. -/
def envCfg : Env :=
  ⟨"mydb", ["users"], "", "", "/app/out", "20240101T000000Z",
   fun _ => [], fun _ _ _ => none⟩

/-- A run with two non-empty collections whose second upload fails. -/
def envB : Env :=
  ⟨"mydb", ["users", "orders"], "bucket", "backups/", "/app/out", "20240101T000000Z",
   fun c => if c = "users" then [docU] else if c = "orders" then [docO] else [],
   fun p _ _ =>
     if p = "/app/out/orders_20240101T000000Z.ndjson" then some .clientError else none⟩

/-- A run whose single collection holds a document that cannot be
serialized after normalization. -/
def envC : Env :=
  ⟨"mydb", ["users"], "bucket", "", "/app/out", "20240101T000000Z",
   fun c => if c = "users" then [docU, badDoc] else [], fun _ _ _ => none⟩

/-! ## Lemmas about the normalizer -/

mutual

theorem convEntry_idem : (v : Value) → convEntry (convEntry v) = convEntry v
  | .vstr _ => rfl
  | .vint _ => rfl
  | .vbool _ => rfl
  | .vnull => rfl
  | .oid _ => rfl
  | .vdict fs => by simp only [convEntry, convFields_idem fs]
  | .varr es => by simp only [convEntry, convElems_idem es]

theorem convFields_idem : (fs : Fields) → convFields (convFields fs) = convFields fs
  | .nil => rfl
  | .cons k v rest => by
    simp only [convFields, convEntry_idem v, convFields_idem rest]

theorem convElems_idem : (es : Elems) → convElems (convElems es) = convElems es
  | .nil => rfl
  | .cons v rest => by
    simp only [convElems, convItem_idem v, convElems_idem rest]

theorem convItem_idem : (v : Value) → convItem (convItem v) = convItem v
  | .vstr _ => rfl
  | .vint _ => rfl
  | .vbool _ => rfl
  | .vnull => rfl
  | .oid _ => rfl
  | .vdict fs => by simp only [convItem, convFields_idem fs]
  | .varr _ => rfl

end

mutual

theorem convEntry_of_oidFree : (v : Value) → hasOid v = false → convEntry v = v
  | .vstr _, _ => rfl
  | .vint _, _ => rfl
  | .vbool _, _ => rfl
  | .vnull, _ => rfl
  | .oid _, h => by simp [hasOid] at h
  | .vdict fs, h => by
    simp only [hasOid] at h
    simp only [convEntry, convFields_of_oidFree fs h]
  | .varr es, h => by
    simp only [hasOid] at h
    simp only [convEntry, convElems_of_oidFree es h]

theorem convFields_of_oidFree : (fs : Fields) → hasOidF fs = false → convFields fs = fs
  | .nil, _ => rfl
  | .cons k v rest, h => by
    simp only [hasOidF, Bool.or_eq_false_iff] at h
    simp only [convFields, convEntry_of_oidFree v h.1, convFields_of_oidFree rest h.2]

theorem convElems_of_oidFree : (es : Elems) → hasOidE es = false → convElems es = es
  | .nil, _ => rfl
  | .cons v rest, h => by
    simp only [hasOidE, Bool.or_eq_false_iff] at h
    simp only [convElems, convItem_of_oidFree v h.1, convElems_of_oidFree rest h.2]

theorem convItem_of_oidFree : (v : Value) → hasOid v = false → convItem v = v
  | .vstr _, _ => rfl
  | .vint _, _ => rfl
  | .vbool _, _ => rfl
  | .vnull, _ => rfl
  | .oid _, h => by simp [hasOid] at h
  | .vdict fs, h => by
    simp only [hasOid] at h
    simp only [convItem, convFields_of_oidFree fs h]
  | .varr _, _ => rfl

end

theorem keysF_convFields : (fs : Fields) → keysF (convFields fs) = keysF fs
  | .nil => rfl
  | .cons _ _ rest => by simp only [convFields, keysF, keysF_convFields rest]

/-! ## The serialized form of a document contains no newline

`json.dumps` escapes every control character, so each written payload
is newline-free and the file has exactly one line per document. -/

theorem digitChar_ne_newline (d : Nat) (h : d < 10) : digitChar d ≠ '\n' := by
  interval_cases d <;> decide

theorem hexDigit_ne_newline (d : Nat) (h : d < 16) : hexDigit d ≠ '\n' := by
  interval_cases d <;> decide

theorem natDecGo_ne_newline : ∀ fuel n, ∀ c ∈ natDecGo fuel n, c ≠ '\n' := by
  intro fuel
  induction fuel with
  | zero => intro n c hc; simp [natDecGo] at hc
  | succ fuel ih =>
    intro n c hc
    rw [natDecGo] at hc
    split at hc
    · next h =>
      simp only [List.mem_singleton] at hc
      exact hc ▸ digitChar_ne_newline n h
    · next h =>
      rcases List.mem_append.mp hc with h1 | h2
      · exact ih (n / 10) c h1
      · simp only [List.mem_singleton] at h2
        exact h2 ▸ digitChar_ne_newline (n % 10) (Nat.mod_lt _ (by omega))

theorem natDec_ne_newline : ∀ n, ∀ c ∈ natDec n, c ≠ '\n' :=
  fun n => natDecGo_ne_newline (n + 1) n

theorem intDec_ne_newline (i : Int) : ∀ c ∈ (intDec i).data, c ≠ '\n' := by
  intro c hc
  unfold intDec at hc
  split at hc
  · rw [String.data_append] at hc
    rcases List.mem_append.mp hc with h1 | h2
    · have h : c = '-' := by simpa using h1
      subst h; decide
    · exact natDec_ne_newline _ c h2
  · exact natDec_ne_newline _ c hc

theorem escChar_ne_newline (c : Char) : ∀ x ∈ escChar c, x ≠ '\n' := by
  intro x hx
  unfold escChar at hx
  split_ifs at hx with h1 h2 h3 h4 h5 h6 h7 h8
  · fin_cases hx <;> decide
  · fin_cases hx <;> decide
  · fin_cases hx <;> decide
  · fin_cases hx <;> decide
  · fin_cases hx <;> decide
  · fin_cases hx <;> decide
  · fin_cases hx <;> decide
  · fin_cases hx
    · decide
    · decide
    · decide
    · decide
    · exact hexDigit_ne_newline _ (by omega)
    · exact hexDigit_ne_newline _ (by omega)
  · have h : x = c := by simpa using hx
    subst h
    intro hn
    subst hn
    exact h8 (by decide)

theorem encStr_ne_newline (s : String) : ∀ c ∈ (encStr s).data, c ≠ '\n' := by
  intro c hc
  have hd : (encStr s).data = '"' :: (s.data.flatMap escChar ++ ['"']) := rfl
  rw [hd] at hc
  rcases List.mem_cons.mp hc with h | h
  · subst h; decide
  · rcases List.mem_append.mp h with h1 | h2
    · obtain ⟨a, _, ha⟩ := List.mem_flatMap.mp h1
      exact escChar_ne_newline a c ha
    · have h : c = '"' := by simpa using h2
      subst h; decide

theorem joinComma_ne_newline :
    ∀ ss : List String, (∀ s ∈ ss, ∀ c ∈ s.data, c ≠ '\n') →
    ∀ c ∈ (joinComma ss).data, c ≠ '\n' := by
  intro ss
  induction ss with
  | nil =>
    intro _ c hc
    simp [joinComma] at hc
  | cons s rest ih =>
    intro hall c hc
    match rest with
    | [] =>
      exact hall s (by simp) c hc
    | t :: ts =>
      have he : joinComma (s :: t :: ts) = s ++ ", " ++ joinComma (t :: ts) := rfl
      rw [he, String.data_append, String.data_append] at hc
      rcases List.mem_append.mp hc with h1 | h2
      · rcases List.mem_append.mp h1 with ha | hb
        · exact hall s (by simp) c ha
        · have h : c = ',' ∨ c = ' ' := by simpa using hb
          rcases h with h | h <;> (subst h; decide)
      · exact ih (fun u hu => hall u (List.mem_cons_of_mem s hu)) c h2

mutual

theorem encVal_ne_newline : (v : Value) → ∀ c ∈ (encVal v).data, c ≠ '\n'
  | .vstr s => encStr_ne_newline s
  | .vint n => intDec_ne_newline n
  | .vbool b => by
    cases b <;>
      (intro c hc
       first
       | (have h : c ∈ ['f', 'a', 'l', 's', 'e'] := hc
          fin_cases h <;> decide)
       | (have h : c ∈ ['t', 'r', 'u', 'e'] := hc
          fin_cases h <;> decide))
  | .vnull => by
    intro c hc
    have h : c ∈ ['n', 'u', 'l', 'l'] := hc
    fin_cases h <;> decide
  | .oid h => encStr_ne_newline (oidStr h)
  | .vdict fs => by
    intro c hc
    rw [show encVal (.vdict fs) = "\x7b" ++ joinComma (encFields fs) ++ "\x7d" from rfl,
      String.data_append, String.data_append] at hc
    rcases List.mem_append.mp hc with h1 | h2
    · rcases List.mem_append.mp h1 with ha | hb
      · have h : c = '\x7b' := by simpa using ha
        subst h; decide
      · exact joinComma_ne_newline (encFields fs) (encFields_ne_newline fs) c hb
    · have h : c = '\x7d' := by simpa using h2
      subst h; decide
  | .varr es => by
    intro c hc
    rw [show encVal (.varr es) = "[" ++ joinComma (encElems es) ++ "]" from rfl,
      String.data_append, String.data_append] at hc
    rcases List.mem_append.mp hc with h1 | h2
    · rcases List.mem_append.mp h1 with ha | hb
      · have h : c = '[' := by simpa using ha
        subst h; decide
      · exact joinComma_ne_newline (encElems es) (encElems_ne_newline es) c hb
    · have h : c = ']' := by simpa using h2
      subst h; decide

theorem encFields_ne_newline : (fs : Fields) → ∀ s ∈ encFields fs, ∀ c ∈ s.data, c ≠ '\n'
  | .nil => by intro s hs; simp [encFields] at hs
  | .cons k v rest => by
    intro s hs c hc
    rcases List.mem_cons.mp hs with h | h
    · subst h
      rw [String.data_append, String.data_append] at hc
      rcases List.mem_append.mp hc with h1 | h2
      · rcases List.mem_append.mp h1 with ha | hb
        · exact encStr_ne_newline k c ha
        · have h : c = ':' ∨ c = ' ' := by simpa using hb
          rcases h with h | h <;> (subst h; decide)
      · exact encVal_ne_newline v c h2
    · exact encFields_ne_newline rest s h c hc

theorem encElems_ne_newline : (es : Elems) → ∀ s ∈ encElems es, ∀ c ∈ s.data, c ≠ '\n'
  | .nil => by intro s hs; simp [encElems] at hs
  | .cons v rest => by
    intro s hs c hc
    rcases List.mem_cons.mp hs with h | h
    · subst h
      exact encVal_ne_newline v c hc
    · exact encElems_ne_newline rest s h c hc

end

theorem encDoc_ne_newline (doc : Fields) : ∀ c ∈ (encDoc doc).data, c ≠ '\n' :=
  fun c hc => encVal_ne_newline (.vdict doc) c hc

/-! ## String and path lemmas -/

theorem strAppendRightCancel {s t u : String} (h : s ++ u = t ++ u) : s = t := by
  apply String.ext
  have hd := congrArg String.data h
  rw [String.data_append, String.data_append] at hd
  exact List.append_cancel_right hd

theorem strAppendLeftCancel {s t u : String} (h : u ++ s = u ++ t) : s = t := by
  apply String.ext
  have hd := congrArg String.data h
  rw [String.data_append, String.data_append] at hd
  exact List.append_cancel_left hd

/-- The filename computed for a collection determines the collection:
two distinct collection names never share an output path in one run. -/
theorem outPathFor_inj (env : Env) {c c' : String}
    (h : outPathFor env c = outPathFor env c') : c = c' := by
  unfold outPathFor pathJoin at h
  split_ifs at h with h1 h2
  · exact strAppendRightCancel (strAppendRightCancel (strAppendRightCancel h))
  · exact strAppendRightCancel (strAppendRightCancel (strAppendRightCancel
      (strAppendLeftCancel h)))
  · exact strAppendRightCancel (strAppendRightCancel (strAppendRightCancel
      (strAppendLeftCancel h)))

/-! ## Behavior of the write loop -/

/-- When every normalized document is serializable, the write loop
writes exactly one payload per document, in order. -/
theorem writeLoop_ok :
    ∀ docs : List Fields, (∀ d ∈ docs, hasOidF (convert_objectid_to_str d) = false) →
    writeLoop docs = (docs.map (fun d => encDoc (convert_objectid_to_str d)), true) := by
  intro docs
  induction docs with
  | nil => intro _; rfl
  | cons d rest ih =>
    intro h
    have hd : dumps (convert_objectid_to_str d) = some (encDoc (convert_objectid_to_str d)) := by
      unfold dumps
      rw [h d (by simp)]
      rfl
    rw [show writeLoop (d :: rest) =
        (match dumps (convert_objectid_to_str d), writeLoop rest with
         | none, _ => ([], false)
         | some s, (ls, ok) => (s :: ls, ok)) from rfl,
      hd, ih (fun x hx => h x (List.mem_cons_of_mem d hx))]
    rfl

/-- When the first non-serializable document sits after `good`, the
write loop raises there, leaving exactly the payloads of `good`. -/
theorem writeLoop_fail :
    ∀ good : List Fields, ∀ bad rest,
    (∀ d ∈ good, hasOidF (convert_objectid_to_str d) = false) →
    hasOidF (convert_objectid_to_str bad) = true →
    writeLoop (good ++ bad :: rest) =
      (good.map (fun d => encDoc (convert_objectid_to_str d)), false) := by
  intro good
  induction good with
  | nil =>
    intro bad rest _ hb
    have hd : dumps (convert_objectid_to_str bad) = none := by
      unfold dumps
      rw [hb]
      rfl
    rw [List.nil_append,
      show writeLoop (bad :: rest) =
        (match dumps (convert_objectid_to_str bad), writeLoop rest with
         | none, _ => ([], false)
         | some s, (ls, ok) => (s :: ls, ok)) from rfl,
      hd]
    rfl
  | cons d gtail ih =>
    intro bad rest hg hb
    have hd : dumps (convert_objectid_to_str d) = some (encDoc (convert_objectid_to_str d)) := by
      unfold dumps
      rw [hg d (by simp)]
      rfl
    rw [List.cons_append,
      show writeLoop (d :: (gtail ++ bad :: rest)) =
        (match dumps (convert_objectid_to_str d), writeLoop (gtail ++ bad :: rest) with
         | none, _ => ([], false)
         | some s, (ls, ok) => (s :: ls, ok)) from rfl,
      hd, ih bad rest (fun x hx => hg x (List.mem_cons_of_mem d hx)) hb]
    rfl

/-- In the rendered file, the newline count — hence the line count — is
exactly the number of payloads written, provided no payload contains a
newline itself. -/
theorem renderFile_newline_count :
    ∀ lines : List String, (∀ l ∈ lines, ∀ c ∈ l.data, c ≠ '\n') →
    (renderFile lines).data.count '\n' = lines.length := by
  intro lines
  induction lines with
  | nil => intro _; rfl
  | cons l rest ih =>
    intro hall
    have hl : l.data.count '\n' = 0 :=
      List.count_eq_zero.mpr (fun hmem => hall l (by simp) '\n' hmem rfl)
    rw [show renderFile (l :: rest) = l ++ "\n" ++ renderFile rest from rfl,
      String.data_append, String.data_append, List.count_append, List.count_append,
      hl, ih (fun u hu => hall u (List.mem_cons_of_mem l hu))]
    simp [List.count_singleton]
    omega

/-! ## Behavior of the exporter and the export loop -/

/-- A non-skip export result carries the computed output path. -/
theorem export_ok_path (env : Env) (c p : String) (ls : List String) (n : Nat)
    (h : export_collection_to_ndjson env c = .ok p ls n) : p = outPathFor env c := by
  unfold export_collection_to_ndjson at h
  split at h
  · cases h
  · split at h <;> cases h <;> rfl

theorem export_err_path (env : Env) (c p : String) (ls : List String)
    (h : export_collection_to_ndjson env c = .err p ls) : p = outPathFor env c := by
  unfold export_collection_to_ndjson at h
  split at h
  · cases h
  · split at h <;> cases h <;> rfl

/-- Unfolding equation for the export loop. -/
theorem exportAll_cons (env : Env) (c : String) (rest : List String) :
    exportAll env (c :: rest) =
      (match export_collection_to_ndjson env c, exportAll env rest with
       | .skip, (ws, fs, ps, ok) => (c :: ws, fs, ps, ok)
       | .ok p ls _, (ws, fs, ps, ok) => (ws, (p, ls) :: fs, p :: ps, ok)
       | .err p ls, _ => ([], [(p, ls)], [], false)) := rfl

/-- Unfolding equation for the upload loop. -/
theorem uploadAll_cons (env : Env) (p : String) (rest : List String) :
    uploadAll env (p :: rest) =
      (match upload_to_s3 env p, uploadAll env rest with
       | .error e, _ => ([(p, computeKey env.s3Pfx p)], [], some e)
       | .ok key, (att, keys, err) => ((p, key) :: att, key :: keys, err)) := rfl

/-- Every path collected by the export loop comes from a successful
export of one of the processed collections. -/
theorem exportAll_mem_paths (env : Env) :
    ∀ cs : List String, ∀ p ∈ (exportAll env cs).2.2.1,
    ∃ c ∈ cs, ∃ ls n, export_collection_to_ndjson env c = .ok p ls n := by
  intro cs
  induction cs with
  | nil => intro p hp; simp [exportAll] at hp
  | cons c rest ih =>
    intro p hp
    rcases hR : exportAll env rest with ⟨ws, fs, ps, ok⟩
    rw [hR] at ih
    cases hE : export_collection_to_ndjson env c with
    | skip =>
      rw [show exportAll env (c :: rest) = (c :: ws, fs, ps, ok) by
        rw [show exportAll env (c :: rest) =
          (match export_collection_to_ndjson env c, exportAll env rest with
           | .skip, (ws, fs, ps, ok) => (c :: ws, fs, ps, ok)
           | .ok p ls _, (ws, fs, ps, ok) => (ws, (p, ls) :: fs, p :: ps, ok)
           | .err p ls, _ => ([], [(p, ls)], [], false)) from rfl, hE, hR]] at hp
      obtain ⟨c', hc', hrest⟩ := ih p hp
      exact ⟨c', List.mem_cons_of_mem c hc', hrest⟩
    | ok q ls n =>
      rw [show exportAll env (c :: rest) = (ws, (q, ls) :: fs, q :: ps, ok) by
        rw [show exportAll env (c :: rest) =
          (match export_collection_to_ndjson env c, exportAll env rest with
           | .skip, (ws, fs, ps, ok) => (c :: ws, fs, ps, ok)
           | .ok p ls _, (ws, fs, ps, ok) => (ws, (p, ls) :: fs, p :: ps, ok)
           | .err p ls, _ => ([], [(p, ls)], [], false)) from rfl, hE, hR]] at hp
      rcases List.mem_cons.mp hp with h | h
      · exact ⟨c, by simp, ls, n, h ▸ hE⟩
      · obtain ⟨c', hc', hrest⟩ := ih p h
        exact ⟨c', List.mem_cons_of_mem c hc', hrest⟩
    | err q ls =>
      rw [show exportAll env (c :: rest) = ([], [(q, ls)], [], false) by
        rw [show exportAll env (c :: rest) =
          (match export_collection_to_ndjson env c, exportAll env rest with
           | .skip, (ws, fs, ps, ok) => (c :: ws, fs, ps, ok)
           | .ok p ls _, (ws, fs, ps, ok) => (ws, (p, ls) :: fs, p :: ps, ok)
           | .err p ls, _ => ([], [(p, ls)], [], false)) from rfl, hE, hR]] at hp
      simp at hp

/-- Every file on disk after the export loop was written by the export
(complete or partial) of one of the processed collections. -/
theorem exportAll_mem_files (env : Env) :
    ∀ cs : List String, ∀ q ls, (q, ls) ∈ (exportAll env cs).2.1 →
    ∃ c ∈ cs, (∃ n, export_collection_to_ndjson env c = .ok q ls n) ∨
      export_collection_to_ndjson env c = .err q ls := by
  intro cs
  induction cs with
  | nil => intro q ls hq; simp [exportAll] at hq
  | cons c rest ih =>
    intro q ls hq
    rcases hR : exportAll env rest with ⟨ws, fs, ps, ok⟩
    rw [hR] at ih
    cases hE : export_collection_to_ndjson env c with
    | skip =>
      rw [exportAll_cons, hE, hR] at hq
      obtain ⟨c', hc', hrest⟩ := ih q ls hq
      exact ⟨c', List.mem_cons_of_mem c hc', hrest⟩
    | ok q0 ls0 n0 =>
      rw [exportAll_cons, hE, hR] at hq
      rcases List.mem_cons.mp hq with h | h
      · obtain ⟨h1, h2⟩ := Prod.mk.injEq .. ▸ h
        exact ⟨c, by simp, Or.inl ⟨n0, by rw [hE, h1, h2]⟩⟩
      · obtain ⟨c', hc', hrest⟩ := ih q ls h
        exact ⟨c', List.mem_cons_of_mem c hc', hrest⟩
    | err q0 ls0 =>
      rw [exportAll_cons, hE, hR] at hq
      rcases List.mem_cons.mp hq with h | h
      · obtain ⟨h1, h2⟩ := Prod.mk.injEq .. ▸ h
        exact ⟨c, by simp, Or.inr (by rw [hE, h1, h2])⟩
      · simp at h

/-- If the export loop finished, every processed empty (skipped)
collection was warned about. -/
theorem exportAll_skip_warn (env : Env) :
    ∀ cs ws fs ps, exportAll env cs = (ws, fs, ps, true) →
    ∀ c ∈ cs, export_collection_to_ndjson env c = .skip → c ∈ ws := by
  intro cs
  induction cs with
  | nil => intro ws fs ps _ c hc; simp at hc
  | cons a rest ih =>
    intro ws fs ps hall c hc hskip
    rcases hR : exportAll env rest with ⟨ws', fs', ps', ok'⟩
    cases hA : export_collection_to_ndjson env a with
    | skip =>
      have hcomp : exportAll env (a :: rest) = (a :: ws', fs', ps', ok') := by
        rw [exportAll_cons, hA, hR]
      rw [hall] at hcomp
      simp only [Prod.mk.injEq] at hcomp
      obtain ⟨e1, _, _, e4⟩ := hcomp
      rcases List.mem_cons.mp hc with h | h
      · rw [e1, h]; simp
      · rw [e1]
        exact List.mem_cons_of_mem a (ih ws' fs' ps' (by rw [hR, ← e4]) c h hskip)
    | ok q0 ls0 n0 =>
      have hcomp : exportAll env (a :: rest) = (ws', (q0, ls0) :: fs', q0 :: ps', ok') := by
        rw [exportAll_cons, hA, hR]
      rw [hall] at hcomp
      simp only [Prod.mk.injEq] at hcomp
      obtain ⟨e1, _, _, e4⟩ := hcomp
      rcases List.mem_cons.mp hc with h | h
      · rw [h] at hskip; rw [hskip] at hA; cases hA
      · rw [e1]
        exact ih ws' fs' ps' (by rw [hR, ← e4]) c h hskip
    | err q0 ls0 =>
      have hcomp : exportAll env (a :: rest) = ([], [(q0, ls0)], [], false) := by
        rw [exportAll_cons, hA]
      rw [hall] at hcomp
      simp only [Prod.mk.injEq] at hcomp
      exact absurd hcomp.2.2.2 (by simp)

/-- If every collection before `c` exports without raising and `c`'s
export raises, the export loop stops at `c`: the partial file is on
disk, no further collection is processed, and every collected path
comes from a successful export of an earlier collection. -/
theorem exportAll_err (env : Env) :
    ∀ pre : List String, ∀ c post p ls,
    (∀ c' ∈ pre, ∀ q m, export_collection_to_ndjson env c' ≠ .err q m) →
    export_collection_to_ndjson env c = .err p ls →
    ∃ ws fs ps, exportAll env (pre ++ c :: post) = (ws, fs, ps, false) ∧
      (p, ls) ∈ fs ∧
      (∀ q ∈ ps, ∃ c' ∈ pre, ∃ l n, export_collection_to_ndjson env c' = .ok q l n) := by
  intro pre
  induction pre with
  | nil =>
    intro c post p ls _ hc
    refine ⟨[], [(p, ls)], [], ?_, by simp, by simp⟩
    rw [List.nil_append, exportAll_cons, hc]
  | cons a pre' ih =>
    intro c post p ls hpre hc
    obtain ⟨ws, fs, ps, hAll, hmem, hps⟩ :=
      ih c post p ls (fun c' h' => hpre c' (List.mem_cons_of_mem a h')) hc
    cases hA : export_collection_to_ndjson env a with
    | skip =>
      refine ⟨a :: ws, fs, ps, ?_, hmem, ?_⟩
      · rw [List.cons_append, exportAll_cons, hA, hAll]
      · intro q hq
        obtain ⟨c', hc', hrest⟩ := hps q hq
        exact ⟨c', List.mem_cons_of_mem a hc', hrest⟩
    | ok q0 ls0 n0 =>
      refine ⟨ws, (q0, ls0) :: fs, q0 :: ps, ?_, List.mem_cons_of_mem _ hmem, ?_⟩
      · rw [List.cons_append, exportAll_cons, hA, hAll]
      · intro q hq
        rcases List.mem_cons.mp hq with h | h
        · exact ⟨a, by simp, ls0, n0, h ▸ hA⟩
        · obtain ⟨c', hc', hrest⟩ := hps q h
          exact ⟨c', List.mem_cons_of_mem a hc', hrest⟩
    | err q0 ls0 =>
      exact absurd hA (hpre a (by simp) q0 ls0)

/-! ## Behavior of the upload loop -/

/-- Every attempted upload's source path is one of the exported paths
handed to the upload loop. -/
theorem uploadAll_attempted_sub (env : Env) :
    ∀ ps : List String, ∀ q k, (q, k) ∈ (uploadAll env ps).1 → q ∈ ps := by
  intro ps
  induction ps with
  | nil => intro q k hq; simp [uploadAll] at hq
  | cons p rest ih =>
    intro q k hq
    rcases hR : uploadAll env rest with ⟨att, keys, err⟩
    rw [hR] at ih
    cases hU : upload_to_s3 env p with
    | error e =>
      rw [uploadAll_cons, hU] at hq
      rcases List.mem_cons.mp hq with h | h
      · obtain ⟨h1, _⟩ := Prod.mk.injEq .. ▸ h
        simp [h1]
      · simp at h
    | ok key =>
      rw [uploadAll_cons, hU, hR] at hq
      rcases List.mem_cons.mp hq with h | h
      · obtain ⟨h1, _⟩ := Prod.mk.injEq .. ▸ h
        simp [h1]
      · exact List.mem_cons_of_mem p (ih q k h)

/-- When the paths before `p` all upload successfully and `p`'s upload
fails with `e`, the upload loop attempts exactly the prefix up to and
including `p`, uploads exactly the keys of the paths before `p`, and
re-raises `e`; the paths after `p` are never attempted. -/
theorem uploadAll_err (env : Env) :
    ∀ pre : List String, ∀ p post e,
    (∀ q ∈ pre, env.s3 q env.s3Bucket (computeKey env.s3Pfx q) = none) →
    env.s3 p env.s3Bucket (computeKey env.s3Pfx p) = some e →
    uploadAll env (pre ++ p :: post) =
      ((pre ++ [p]).map (fun q => (q, computeKey env.s3Pfx q)),
       pre.map (fun q => computeKey env.s3Pfx q), some e) := by
  intro pre
  induction pre with
  | nil =>
    intro p post e _ hp
    rw [List.nil_append, uploadAll_cons,
      show upload_to_s3 env p = .error e by unfold upload_to_s3; rw [hp]]
    rfl
  | cons a pre' ih =>
    intro p post e hpre hp
    have ha : upload_to_s3 env a = .ok (computeKey env.s3Pfx a) := by
      unfold upload_to_s3
      rw [hpre a (by simp)]
    rw [List.cons_append, uploadAll_cons, ha,
      ih p post e (fun q hq => hpre q (List.mem_cons_of_mem a hq)) hp]
    rfl

/-! ## Case analysis of a whole run -/

/-- Every run of `main` ends in one of four ways: configuration error
(before any connection), export-loop exception, exit 2 with no upload
attempted, or the upload phase over a non-empty path list. -/
theorem main_cases (env : Env) :
    ((env.mongoDB = "" ∨ env.collections.isEmpty ∨ env.s3Bucket = "") ∧
      main env = ⟨false, [], [], [], [], [], .exit1⟩) ∨
    (∃ ws fs ps, exportAll env env.collections = (ws, fs, ps, false) ∧
      main env = ⟨true, ws, fs, ps, [], [], .exportRaised⟩) ∨
    (∃ ws fs, exportAll env env.collections = (ws, fs, [], true) ∧
      main env = ⟨true, ws, fs, [], [], [], .exit2⟩) ∨
    (∃ ws fs ps att keys err, exportAll env env.collections = (ws, fs, ps, true) ∧
      ps ≠ [] ∧ uploadAll env ps = (att, keys, err) ∧
      main env = ⟨true, ws, fs, ps, att, keys,
        (match err with | some e => .uploadRaised e | none => .exit0)⟩) := by
  by_cases hA : env.mongoDB = "" ∨ env.collections.isEmpty
  · refine Or.inl ⟨?_, by unfold main; rw [if_pos hA]⟩
    rcases hA with h | h
    · exact Or.inl h
    · exact Or.inr (Or.inl h)
  · by_cases hB : env.s3Bucket = ""
    · exact Or.inl ⟨Or.inr (Or.inr hB), by unfold main; rw [if_neg hA, if_pos hB]⟩
    · rcases hE : exportAll env env.collections with ⟨ws, fs, ps, ok⟩
      cases ok with
      | false =>
        refine Or.inr (Or.inl ⟨ws, fs, ps, rfl, ?_⟩)
        unfold main
        rw [if_neg hA, if_neg hB, hE]
      | true =>
        rcases ps with _ | ⟨a, as⟩
        · refine Or.inr (Or.inr (Or.inl ⟨ws, fs, rfl, ?_⟩))
          unfold main
          rw [if_neg hA, if_neg hB, hE]
          rfl
        · rcases hU : uploadAll env (a :: as) with ⟨att, keys, err⟩
          refine Or.inr (Or.inr (Or.inr ⟨ws, fs, a :: as, att, keys, err, rfl, by simp, hU, ?_⟩))
          unfold main
          rw [if_neg hA, if_neg hB, hE]
          show mainUpload env ws fs (a :: as) = _
          unfold mainUpload
          rw [if_neg (by simp), hU]
          cases err <;> rfl

/-! ## The claims -/

/-- Claim C1 is false of the code: the Identifier Normalizer does not
remove every ObjectId from the tree.  An ObjectId sitting directly
inside a list value (here at key `"ids"`, a sequence inside a mapping)
survives `convert_objectid_to_str` unchanged, contradicting the
function's own docstring ("converts all ObjectId in a document").  This
evaluates the normalizer at such a document. -/
theorem convert_misses_oid_inside_list :
    convert_objectid_to_str badDoc = badDoc ∧
    hasOidF badDoc = true ∧
    hasOidF (convert_objectid_to_str badDoc) = true :=
  ⟨rfl, rfl, rfl⟩

/-- Claim C4: if the database name is empty, the collection list is
empty, or the destination bucket is empty, `main` ends with exit
status 1, no store connection is opened, no file is written, and no
upload is attempted. -/
theorem config_error_exits_1_before_connect (env : Env)
    (h : env.mongoDB = "" ∨ env.collections = [] ∨ env.s3Bucket = "") :
    main env = ⟨false, [], [], [], [], [], .exit1⟩ := by
  rcases h with h | h | h
  · unfold main; rw [if_pos (Or.inl h)]
  · unfold main; rw [if_pos (Or.inr (by rw [h]; rfl))]
  · by_cases hA : env.mongoDB = "" ∨ env.collections.isEmpty
    · unfold main; rw [if_pos hA]
    · unfold main; rw [if_neg hA, if_pos h]

/-- Witness for C4 at a run with an empty destination bucket. -/
theorem config_error_exits_1_before_connect_witness :
    main envCfg = ⟨false, [], [], [], [], [], .exit1⟩ :=
  config_error_exits_1_before_connect envCfg (Or.inr (Or.inr rfl))

/-- Claim C7: the destination key is the prefix with trailing slashes
stripped, then `/`, then the file's basename when a prefix is
configured, and the bare basename otherwise; checked against the
spec-worded rule and at the spec's concrete examples. -/
theorem upload_key_computation :
    (∀ pfx p, computeKey pfx p = specUploadKey pfx p) ∧
    computeKey "backups/" "users_20240101T000000Z.ndjson"
      = "backups/users_20240101T000000Z.ndjson" ∧
    computeKey "" "users_20240101T000000Z.ndjson" = "users_20240101T000000Z.ndjson" ∧
    computeKey "backups/" "/app/out/users_20240101T000000Z.ndjson"
      = "backups/users_20240101T000000Z.ndjson" :=
  ⟨fun _ _ => rfl, by decide, by decide, by decide⟩

/-- Claim C8: the Identifier Normalizer is idempotent, on whole
documents and on every value of the tree. -/
theorem normalization_idempotent :
    (∀ doc : Fields, convert_objectid_to_str (convert_objectid_to_str doc)
      = convert_objectid_to_str doc) ∧
    (∀ v : Value, convEntry (convEntry v) = convEntry v) :=
  ⟨fun doc => convFields_idem doc, fun v => convEntry_idem v⟩

/-- Claim C9: normalization changes only ObjectId values: a value that
is not a mapping, not a sequence and not an ObjectId passes through
unchanged; a subtree containing no ObjectId anywhere is left exactly
as-is; and the key structure of a document is preserved. -/
theorem normalization_frame :
    (∀ v : Value, isScalar v = true → convEntry v = v) ∧
    (∀ v : Value, hasOid v = false → convEntry v = v) ∧
    (∀ doc : Fields, hasOidF doc = false → convert_objectid_to_str doc = doc) ∧
    (∀ doc : Fields, keysF (convert_objectid_to_str doc) = keysF doc) := by
  refine ⟨?_, convEntry_of_oidFree, convFields_of_oidFree, keysF_convFields⟩
  intro v h
  cases v <;> first | rfl | simp [isScalar] at h

/-- Witness for C9 at a scalar, an ObjectId-free value and an
ObjectId-free document. -/
theorem normalization_frame_witness :
    (isScalar (Value.vint 7) = true ∧ convEntry (Value.vint 7) = Value.vint 7) ∧
    (hasOid (Value.vstr "x") = false ∧ convEntry (Value.vstr "x") = Value.vstr "x") ∧
    (hasOidF docU = false ∧ convert_objectid_to_str docU = docU) :=
  ⟨⟨rfl, normalization_frame.1 _ rfl⟩, ⟨rfl, normalization_frame.2.1 _ rfl⟩,
   ⟨rfl, normalization_frame.2.2.1 _ rfl⟩⟩

/-- Claim C2: when the export loop finishes with an empty
`exported_files` list, the run exits with status 2 — distinct from the
configuration-error status 1 — and no upload is ever attempted. -/
theorem no_data_exported_exits_2 (env : Env) (ws : List String)
    (fs : List (String × List String))
    (h1 : env.mongoDB ≠ "") (h2 : ¬env.collections.isEmpty) (h3 : env.s3Bucket ≠ "")
    (hE : exportAll env env.collections = (ws, fs, [], true)) :
    (main env).status = .exit2 ∧ (main env).uploadsAttempted = [] ∧
    (main env).s3Objects = [] ∧ (main env).status ≠ .exit1 := by
  have hmain : main env = ⟨true, ws, fs, [], [], [], .exit2⟩ := by
    unfold main
    rw [if_neg (not_or.mpr ⟨h1, h2⟩), if_neg h3, hE]
    all_goals rfl
  have hst : (main env).status = .exit2 := by rw [hmain]
  refine ⟨hst, by rw [hmain], by rw [hmain], ?_⟩
  rw [hst]
  decide

/-- Witness for C2 at a run whose collections are all empty. -/
theorem no_data_exported_exits_2_witness :
    (main envA).status = .exit2 ∧ (main envA).uploadsAttempted = [] ∧
    (main envA).s3Objects = [] ∧ (main envA).status ≠ .exit1 :=
  no_data_exported_exits_2 envA ["users", "orders"] []
    (by decide) (by decide) (by decide) (by decide)

/-- Claim C3: in the upload phase the first failing upload is re-raised
and aborts the remaining uploads immediately: the uploads attempted are
exactly the exported paths up to and including the failing one, and the
files uploaded before the failure remain in the bucket (no compensating
delete). -/
theorem upload_failure_aborts_rest (env : Env) (ws : List String)
    (fs : List (String × List String)) (pre : List String) (p : String)
    (post : List String) (e : S3Err)
    (h1 : env.mongoDB ≠ "") (h2 : ¬env.collections.isEmpty) (h3 : env.s3Bucket ≠ "")
    (hE : exportAll env env.collections = (ws, fs, pre ++ p :: post, true))
    (hpre : ∀ q ∈ pre, env.s3 q env.s3Bucket (computeKey env.s3Pfx q) = none)
    (hp : env.s3 p env.s3Bucket (computeKey env.s3Pfx p) = some e) :
    (main env).status = .uploadRaised e ∧
    (main env).uploadsAttempted = (pre ++ [p]).map (fun q => (q, computeKey env.s3Pfx q)) ∧
    (main env).s3Objects = pre.map (fun q => computeKey env.s3Pfx q) := by
  have hmain : main env = ⟨true, ws, fs, pre ++ p :: post,
      (pre ++ [p]).map (fun q => (q, computeKey env.s3Pfx q)),
      pre.map (fun q => computeKey env.s3Pfx q), .uploadRaised e⟩ := by
    unfold main
    rw [if_neg (not_or.mpr ⟨h1, h2⟩), if_neg h3, hE]
    show mainUpload env ws fs (pre ++ p :: post) = _
    unfold mainUpload
    rw [show (pre ++ p :: post).isEmpty = false by cases pre <;> rfl]
    rw [if_neg (by simp), uploadAll_err env pre p post e hpre hp]
  rw [hmain]
  exact ⟨rfl, rfl, rfl⟩

/-- Witness for C3 at a run with two exported files whose second upload
fails with a client error: both uploads are attempted, the first key
stays in the bucket, the error propagates. -/
theorem upload_failure_aborts_rest_witness :
    (main envB).status = .uploadRaised .clientError ∧
    (main envB).uploadsAttempted =
      [("/app/out/users_20240101T000000Z.ndjson", "backups/users_20240101T000000Z.ndjson"),
       ("/app/out/orders_20240101T000000Z.ndjson", "backups/orders_20240101T000000Z.ndjson")] ∧
    (main envB).s3Objects = ["backups/users_20240101T000000Z.ndjson"] := by
  have h := upload_failure_aborts_rest envB []
    [("/app/out/users_20240101T000000Z.ndjson", ["\x7b\"a\": 1\x7d"]),
     ("/app/out/orders_20240101T000000Z.ndjson", ["\x7b\"b\": \"x\"\x7d"])]
    ["/app/out/users_20240101T000000Z.ndjson"] "/app/out/orders_20240101T000000Z.ndjson" []
    .clientError (by decide) (by decide) (by decide) (by decide) (by decide) (by decide)
  refine ⟨h.1, ?_, ?_⟩
  · rw [h.2.1]; rfl
  · rw [h.2.2]; rfl

/-- Claim C5: a collection whose fetch returns zero documents is
skipped: the exporter returns an empty path and a zero count, writes no
file, the collection's output path is never collected, never uploaded,
and — whenever the run reaches and finishes the export loop — the
skip is warned about. -/
theorem empty_collection_skip (env : Env) (c : String) (h : env.db c = []) :
    export_collection_to_ndjson env c = .skip ∧
    (export_collection_to_ndjson env c).path = "" ∧
    (export_collection_to_ndjson env c).count = 0 ∧
    (∀ ls, (outPathFor env c, ls) ∉ (main env).files) ∧
    outPathFor env c ∉ (main env).exported_files ∧
    (∀ q k, (q, k) ∈ (main env).uploadsAttempted → q ≠ outPathFor env c) ∧
    (c ∈ env.collections → (main env).connected = true →
      (main env).status ≠ .exportRaised → c ∈ (main env).warnings) := by
  have hskip : export_collection_to_ndjson env c = .skip := by
    unfold export_collection_to_ndjson
    rw [h]
    rfl
  have hpath : ∀ c' q ls, ((∃ n, export_collection_to_ndjson env c' = .ok q ls n) ∨
      export_collection_to_ndjson env c' = .err q ls) → q ≠ outPathFor env c := by
    intro c' q ls hcase heq
    have hq : q = outPathFor env c' := by
      rcases hcase with ⟨n, hn⟩ | hn
      · exact export_ok_path env c' q ls n hn
      · exact export_err_path env c' q ls hn
    have hcc : c = c' := outPathFor_inj env (by rw [← heq, hq])
    rcases hcase with ⟨n, hn⟩ | hn <;> (rw [← hcc, hskip] at hn; cases hn)
  refine ⟨hskip, by rw [hskip]; rfl, by rw [hskip]; rfl, ?_, ?_, ?_, ?_⟩
  · intro ls hmem
    rcases main_cases env with ⟨_, hm⟩ | ⟨ws, fs, ps, hE, hm⟩ |
      ⟨ws, fs, hE, hm⟩ | ⟨ws, fs, ps, att, keys, err, hE, _, _, hm⟩
    · rw [hm] at hmem; simp at hmem
    all_goals
      rw [hm] at hmem
      obtain ⟨c', _, hcase⟩ := exportAll_mem_files env env.collections _ ls
        (by rw [hE]; exact hmem)
      exact hpath c' _ ls hcase rfl
  · intro hmem
    rcases main_cases env with ⟨_, hm⟩ | ⟨ws, fs, ps, hE, hm⟩ |
      ⟨ws, fs, hE, hm⟩ | ⟨ws, fs, ps, att, keys, err, hE, _, _, hm⟩
    · rw [hm] at hmem; simp at hmem
    all_goals
      rw [hm] at hmem
      obtain ⟨c', _, ls, n, hok⟩ := exportAll_mem_paths env env.collections _
        (by rw [hE]; exact hmem)
      exact hpath c' _ ls (Or.inl ⟨n, hok⟩) rfl
  · intro q k hq heq
    rcases main_cases env with ⟨_, hm⟩ | ⟨ws, fs, ps, hE, hm⟩ |
      ⟨ws, fs, hE, hm⟩ | ⟨ws, fs, ps, att, keys, err, hE, _, hU, hm⟩
    · rw [hm] at hq; simp at hq
    · rw [hm] at hq; simp at hq
    · rw [hm] at hq; simp at hq
    · rw [hm] at hq
      have hqps : q ∈ ps := uploadAll_attempted_sub env ps q k (by rw [hU]; exact hq)
      obtain ⟨c', _, ls, n, hok⟩ := exportAll_mem_paths env env.collections q
        (by rw [hE]; exact hqps)
      exact hpath c' q ls (Or.inl ⟨n, hok⟩) heq
  · intro hc hconn hstat
    rcases main_cases env with ⟨_, hm⟩ | ⟨ws, fs, ps, hE, hm⟩ |
      ⟨ws, fs, hE, hm⟩ | ⟨ws, fs, ps, att, keys, err, hE, _, _, hm⟩
    · rw [hm] at hconn; cases hconn
    · rw [hm] at hstat; exact absurd rfl hstat
    · rw [hm]
      exact exportAll_skip_warn env env.collections ws fs [] hE c hc hskip
    · rw [hm]
      exact exportAll_skip_warn env env.collections ws fs ps hE c hc hskip

/-- Witness for C5 at a run whose `"users"` collection is empty. -/
theorem empty_collection_skip_witness :
    export_collection_to_ndjson envA "users" = .skip ∧
    (export_collection_to_ndjson envA "users").path = "" ∧
    (export_collection_to_ndjson envA "users").count = 0 ∧
    outPathFor envA "users" ∉ (main envA).exported_files ∧
    ("users" ∈ envA.collections → (main envA).connected = true →
      (main envA).status ≠ .exportRaised → "users" ∈ (main envA).warnings) := by
  have h := empty_collection_skip envA "users" rfl
  exact ⟨h.1, h.2.1, h.2.2.1, h.2.2.2.2.1, h.2.2.2.2.2.2⟩

/-- Claim C6: a non-empty collection whose documents all serialize is
exported as one payload per document in retrieval order with no
re-ordering and no deduplication; each payload is the JSON-object
serialization of a document, contains no newline, and the file's line
count (its newline count, each payload being terminated by exactly one
newline) equals the returned document count. -/
theorem export_one_line_per_document (env : Env) (c : String)
    (hne : env.db c ≠ [])
    (hser : ∀ d ∈ env.db c, hasOidF (convert_objectid_to_str d) = false) :
    export_collection_to_ndjson env c =
      .ok (outPathFor env c)
        ((env.db c).map (fun d => encDoc (convert_objectid_to_str d)))
        (env.db c).length ∧
    (export_collection_to_ndjson env c).count = (env.db c).length ∧
    ((env.db c).map (fun d => encDoc (convert_objectid_to_str d))).length
      = (env.db c).length ∧
    (∀ l ∈ (env.db c).map (fun d => encDoc (convert_objectid_to_str d)),
      (∃ doc : Fields, l = encDoc doc) ∧ ∀ ch ∈ l.data, ch ≠ '\n') ∧
    (renderFile ((env.db c).map (fun d => encDoc (convert_objectid_to_str d)))).data.count '\n'
      = (env.db c).length := by
  have hie : (env.db c).isEmpty = false := by
    cases hd : env.db c
    · exact absurd hd hne
    · rfl
  have hexp : export_collection_to_ndjson env c =
      .ok (outPathFor env c)
        ((env.db c).map (fun d => encDoc (convert_objectid_to_str d)))
        (env.db c).length := by
    unfold export_collection_to_ndjson
    rw [hie, if_neg (by simp), writeLoop_ok (env.db c) hser]
  refine ⟨hexp, by rw [hexp]; rfl, List.length_map _ _, ?_, ?_⟩
  · intro l hl
    obtain ⟨d, _, hd⟩ := List.mem_map.mp hl
    exact ⟨⟨convert_objectid_to_str d, hd.symm⟩,
      fun ch hch => encDoc_ne_newline (convert_objectid_to_str d) ch (hd ▸ hch)⟩
  · rw [show (env.db c).length
        = ((env.db c).map (fun d => encDoc (convert_objectid_to_str d))).length from
      (List.length_map _ _).symm]
    apply renderFile_newline_count
    intro l hl
    obtain ⟨d, _, hd⟩ := List.mem_map.mp hl
    intro ch hch
    exact encDoc_ne_newline (convert_objectid_to_str d) ch (hd ▸ hch)

/-- Witness for C6 at a one-document collection. -/
theorem export_one_line_per_document_witness :
    export_collection_to_ndjson envB "users" =
      .ok (outPathFor envB "users")
        ((envB.db "users").map (fun d => encDoc (convert_objectid_to_str d)))
        (envB.db "users").length ∧
    export_collection_to_ndjson envB "users" =
      .ok "/app/out/users_20240101T000000Z.ndjson" ["\x7b\"a\": 1\x7d"] 1 := by
  have h := export_one_line_per_document envB "users" (by decide) (by decide)
  exact ⟨h.1, by rw [h.1]; rfl⟩

/-- Claim C10: export is not atomic on serialization failure: when a
document of a non-empty collection cannot be serialized after
normalization, the exception propagates out of the exporter and out of
`main`, the partial file holding exactly the documents written before
the failure stays on disk at the computed path, that path is never
added to `exported_files`, and no upload at all is attempted. -/
theorem export_not_atomic_on_failure (env : Env)
    (pre : List String) (c : String) (post : List String)
    (good : List Fields) (bad : Fields) (rest : List Fields)
    (h1 : env.mongoDB ≠ "") (h2 : ¬env.collections.isEmpty) (h3 : env.s3Bucket ≠ "")
    (hcols : env.collections = pre ++ c :: post)
    (hpre : ∀ c' ∈ pre, ∀ q m, export_collection_to_ndjson env c' ≠ .err q m)
    (hdb : env.db c = good ++ bad :: rest)
    (hgood : ∀ d ∈ good, hasOidF (convert_objectid_to_str d) = false)
    (hbad : hasOidF (convert_objectid_to_str bad) = true) :
    export_collection_to_ndjson env c =
      .err (outPathFor env c) (good.map (fun d => encDoc (convert_objectid_to_str d))) ∧
    (main env).status = .exportRaised ∧
    (outPathFor env c, good.map (fun d => encDoc (convert_objectid_to_str d)))
      ∈ (main env).files ∧
    outPathFor env c ∉ (main env).exported_files ∧
    (main env).uploadsAttempted = [] := by
  have hie : (env.db c).isEmpty = false := by rw [hdb]; cases good <;> rfl
  have hexp : export_collection_to_ndjson env c =
      .err (outPathFor env c) (good.map (fun d => encDoc (convert_objectid_to_str d))) := by
    unfold export_collection_to_ndjson
    rw [hie, if_neg (by simp), hdb, writeLoop_fail good bad rest hgood hbad]
  obtain ⟨ws, fs, ps, hAll, hmem, hps⟩ := exportAll_err env pre c post _ _ hpre hexp
  rw [← hcols] at hAll
  rcases main_cases env with ⟨hcond, _⟩ | ⟨ws2, fs2, ps2, hE2, hm⟩ |
    ⟨ws2, fs2, hE2, hm⟩ | ⟨ws2, fs2, ps2, att, keys, err, hE2, _, _, hm⟩
  · exfalso
    rcases hcond with h | h | h
    · exact h1 h
    · exact h2 h
    · exact h3 h
  · rw [hAll] at hE2
    simp only [Prod.mk.injEq] at hE2
    obtain ⟨e1, e2, e3, _⟩ := hE2
    refine ⟨hexp, by rw [hm], ?_, ?_, by rw [hm]⟩
    · rw [hm]
      show _ ∈ fs2
      rw [← e2]
      exact hmem
    · rw [hm]
      show outPathFor env c ∉ ps2
      rw [← e3]
      intro hin
      obtain ⟨c', _, l, n, hok⟩ := hps _ hin
      have hq : outPathFor env c = outPathFor env c' := export_ok_path env c' _ l n hok
      rw [← outPathFor_inj env hq, hexp] at hok
      cases hok
  · rw [hAll] at hE2
    simp only [Prod.mk.injEq] at hE2
    exact absurd hE2.2.2.2 (by simp)
  · rw [hAll] at hE2
    simp only [Prod.mk.injEq] at hE2
    exact absurd hE2.2.2.2 (by simp)

/-- Witness for C10: a collection with one serializable document
followed by one whose ObjectId survives normalization inside a list;
the run raises, the partial file holds one line, nothing is uploaded. -/
theorem export_not_atomic_on_failure_witness :
    hasOidF (convert_objectid_to_str badDoc) = true ∧
    export_collection_to_ndjson envC "users" =
      .err "/app/out/users_20240101T000000Z.ndjson" ["\x7b\"a\": 1\x7d"] ∧
    (main envC).status = .exportRaised ∧
    (main envC).uploadsAttempted = [] := by
  have h := export_not_atomic_on_failure envC [] "users" [] [docU] badDoc []
    (by decide) (by decide) (by decide) rfl (by simp) rfl (by decide) (by decide)
  exact ⟨by decide, by rw [h.1]; rfl, h.2.1, h.2.2.2.2⟩

end Ingesta
